import Mathlib

/-
Shallow embedding of the map_reduce worker (worker.go) and verification of
the spec's claims about it.

Conventions of the embedding:
- Go `int` is modelled as `Int` (64-bit two's-complement where overflow or a
  narrowing conversion matters: the conversion `uint32(x)` is `x mod 2^32`,
  and the running `count += i` in Reduce wraps at 64 bits).
- Go strings are Lean `String`s; `[]byte(s)` is the UTF-8 byte list of `s`.
- Channel emission is modelled as the list of emitted values, in order.
- The key/value store collaborator (create / open / INSERT) is modelled as a
  reliable in-memory file system `FS`: a list of (file name, pair list).
- A Go runtime panic or `log.Fatalf` (process exit) is modelled as `none` in
  an `Option`-valued result.
- A spawned, un-joined goroutine is modelled by recording, in the result of
  `Process`, which work was still pending at the moment the function
  returned, together with the eventual effect of that work once it runs.
-/

namespace MapReduce

/-- Pair (worker.go lines 29-32): the (key, value) record. -/
structure Pair where
  Key : String
  Value : String
deriving DecidableEq

/-- MapTask (worker.go lines 17-21). -/
structure MapTask where
  M : Int
  R : Int
  N : Int
  SourceHost : String
deriving DecidableEq

/-- ReduceTask (worker.go lines 23-27). -/
structure ReduceTask where
  M : Int
  R : Int
  N : Int
  SourceHosts : List String
deriving DecidableEq

/-- mapSourceFile (worker.go line 51): `fmt.Sprintf("map_%d_source.db", m)`. -/
def mapSourceFile (m : Int) : String := "map_" ++ toString m ++ "_source.db"

/-- mapInputFile (worker.go line 55). -/
def mapInputFile (m : Int) : String := "map_" ++ toString m ++ "_input.db"

/-- mapOutputFile (worker.go line 59): `fmt.Sprintf("map_%d_output_%d.db", m, r)`. -/
def mapOutputFile (m r : Int) : String :=
  "map_" ++ toString m ++ "_output_" ++ toString r ++ ".db"

/-- reduceInputFile (worker.go line 63). -/
def reduceInputFile (r : Int) : String := "reduce_" ++ toString r ++ "_input.db"

/-- reduceTempFile (worker.go line 75). -/
def reduceTempFile (r : Int) : String := "reduce_" ++ toString r ++ "_temp.db"

/-- makeURL (worker.go line 79): `fmt.Sprintf("http://%s/data/%s", host, file)`. -/
def makeURL (host file : String) : String := "http://" ++ host ++ "/data/" ++ file

/-- FNV-1 32-bit hash of a byte list, as computed by `fnv.New32` plus
`hash.Write` (worker.go lines 172-173): start at the 32-bit offset basis;
for each byte, multiply by the 32-bit FNV prime (mod 2^32) and xor the byte. -/
def fnv32 (bytes : List Nat) : Nat :=
  bytes.foldl (fun h b => Nat.xor ((h * 16777619) % 2 ^ 32) b) 2166136261

/-- Go's conversion `uint32(z)` of a signed integer: the low 32 bits. -/
def uint32OfInt (z : Int) : Nat := (z % (2 : Int) ^ 32).toNat

/-- Go's `%` on uint32 (worker.go line 174): a modulus of zero is a runtime
panic (integer divide by zero), modelled as `none`. -/
def goUint32Mod (h r32 : Nat) : Option Nat :=
  if r32 = 0 then none else some (h % r32)

/-- The UTF-8 bytes of a string, as Go's `[]byte(key)` (worker.go line 173). -/
def keyBytes (s : String) : List Nat := s.toUTF8.toList.map (fun b => b.toNat)

/-- The bucket index computed by InsertPair (worker.go lines 171-174):
`r := int(hash.Sum32() % uint32(task.R))` where `hash` is the FNV-32 hash
of the key bytes. Reads only the key bytes and `task.R`. -/
def bucketCompute (task : MapTask) (key : List Nat) : Option Int :=
  (goUint32Mod (fnv32 key) (uint32OfInt task.R)).map (fun r => (r : Int))

/-- The local store collaborator: a named-file map from file names to the
pair lists they hold. -/
abbrev FS := List (String × List Pair)

/-- Contents of a named store, `none` when the file does not exist. -/
def fsGet (fs : FS) (name : String) : Option (List Pair) :=
  (fs.find? (fun e => e.1 == name)).map (fun e => e.2)

/-- Effect of `getDatabase` (create-if-absent, worker.go lines 159-166)
followed by the INSERT (worker.go line 184): append the pair to the named
store, creating the store on first write. -/
def fsAppend : FS → String → Pair → FS
  | [], name, p => [(name, [p])]
  | (n, ps) :: rest, name, p =>
    if n == name then (n, ps ++ [p]) :: rest else (n, ps) :: fsAppend rest name p

/-- InsertPair (worker.go lines 168-193): compute the bucket index from the
pair's key and `task.R`, then append the pair to the store named
`mapOutputFile task.N r`, creating it if absent. A zero 32-bit modulus
(`task.R` a multiple of 2^32, in particular any run that reaches here with
R = 0) panics before any file is touched; store errors end the process via
`log.Fatalf` and do not occur in the reliable-store model. -/
def insertPair (task : MapTask) (fs : FS) (p : Pair) : Option FS :=
  match bucketCompute task (keyBytes p.Key) with
  | none => none
  | some r => some (fsAppend fs (mapOutputFile task.N r) p)

/-- Result of one run of `MapTask.Process` (worker.go lines 195-257).
`ret` is the value returned to the caller; `pendingAtReturn` is the input
rows whose scan / Map / insert processing the spawned goroutine (line 223)
had not performed when `Process` returned; `finalTask` is the task record
after the spawned work eventually completes. -/
structure MapExec where
  ret : Option Unit
  pendingAtReturn : List Pair
  finalTask : MapTask
deriving DecidableEq

/-- MapTask.Process (worker.go lines 195-257), parameterised by the outcomes
of its collaborators: `downloadR` the result of `download` (line 201),
`openR` of `openDatabase` (line 208), `queryR` of `db.Query` (line 215),
and `rows` the input pairs the query yields. The download error is only
logged (lines 202-204) and control continues. An open or query error is
returned. Otherwise the scan/Map/insert loop is spawned in a goroutine
(lines 223-254) that is never joined, and the function returns the query
error (nil) at line 256; the goroutine executes `task.M++` once per input
row (line 252). -/
def mapTaskProcess (task : MapTask) (downloadR openR queryR : Option Unit)
    (rows : List Pair) : MapExec :=
  match downloadR with
  | _ =>
    match openR with
    | some e => { ret := some e, pendingAtReturn := [], finalTask := task }
    | none =>
      match queryR with
      | some e => { ret := some e, pendingAtReturn := [], finalTask := task }
      | none =>
        { ret := none
          pendingAtReturn := rows
          finalTask := { task with M := task.M + rows.length } }

/-- Traversal of a list under an `Option`-valued function, failing as soon
as one element fails; used to model the URL-building loop with its
unchecked indexing. -/
def optionTraverse (f : Nat → Option String) : List Nat → Option (List String)
  | [] => some []
  | a :: l =>
    match f a with
    | none => none
    | some b =>
      match optionTraverse f l with
      | none => none
      | some bs => some (b :: bs)

/-- The URL-building loop of ReduceTask.Process (worker.go lines 263-271):
for `m` from 0 while `m < task.M`, read `task.SourceHosts[m]` (no bounds
check: an out-of-range index is a runtime panic, modelled as `none`) and
form the URL of bucket file `(m, task.N)`. -/
def reduceGatherUrls (task : ReduceTask) : Option (List String) :=
  optionTraverse
    (fun m => (task.SourceHosts.get? m).map
      (fun host => makeURL host (mapOutputFile (m : Int) task.N)))
    (List.range task.M.toNat)

/-- Ordering used by the merge: by key, then by value as tiebreak. -/
def pairLE (p q : Pair) : Bool :=
  decide (p.Key < q.Key) || (p.Key == q.Key && decide (p.Value ≤ q.Value))

/-- Insertion into a sorted pair list, keeping every element. -/
def insertSorted (p : Pair) : List Pair → List Pair
  | [] => [p]
  | q :: rest => if pairLE q p then q :: insertSorted p rest else p :: q :: rest

/-- Sort of a pair list under `pairLE`, keeping every element. -/
def sortPairs : List Pair → List Pair
  | [] => []
  | p :: rest => insertSorted p (sortPairs rest)

/-- Modelled from the spec: `mergeDatabases` is called by ReduceTask.Process
(worker.go line 273) but its definition is not among the provided source
files. Per spec section 4.3 it fetches the named sources and produces the
total sorted union of their pairs, sorted by key then value, preserving
every pair. Modelled as the sort of the concatenation of the fetched
sources, with `env` the fetch environment mapping a URL to the pair list it
serves. -/
def mergeDatabases (env : String → List Pair) (urls : List String) : List Pair :=
  sortPairs (urls.map env).flatten

/-- Result of one run of `ReduceTask.Process` (worker.go lines 261-281).
`merged` is what `mergeDatabases` wrote into the reduce input store;
`reduceCalls` records every invocation of `client.Reduce` the run made
(key and value sequence); `outputPairs` the pairs persisted to the reduce
output store; `ret` the returned value. -/
structure ReduceExec where
  merged : List Pair
  reduceCalls : List (String × List String)
  outputPairs : List Pair
  ret : Option Unit
deriving DecidableEq

/-- ReduceTask.Process (worker.go lines 261-281, the live code path): build
the M source URLs (panicking on a missing endpoint), merge the sources into
the reduce input store, close it and return nil. The live path never
references `client`: it performs no `Reduce` invocation and writes nothing
to a reduce output store (the grouping logic, lines 284-360, is commented
out). A merge failure calls `log.Fatalf` (process exit) and does not occur
in the reliable-collaborator model. -/
def reduceTaskProcess (task : ReduceTask) (env : String → List Pair) :
    Option ReduceExec :=
  (reduceGatherUrls task).map (fun urls =>
    { merged := mergeDatabases env urls
      reduceCalls := []
      outputPairs := []
      ret := none })

/-- strings.Fields of the Go standard library (used at worker.go line 103):
the maximal runs of non-space characters, `isSpace` deciding spaceness. -/
def fieldsBy (isSpace : Char → Bool) (s : List Char) : List (List Char) :=
  (List.splitOnP isSpace s).filter (fun t => !t.isEmpty)

/-- strings.Map of the Go standard library: apply `f` to every rune,
dropping the rune when `f` yields `none` (Go: a negative result). -/
def goStringsMap (f : Char → Option Char) (s : List Char) : List Char :=
  s.filterMap f

/-- The normalisation applied to each token by Client.Map (worker.go lines
105-110): keep only letters and digits, lower-cased, per the supplied
classifiers (`unicode.IsLetter`, `unicode.IsDigit`, `unicode.ToLower`). -/
def normalizeWord (isLetter isDigit : Char → Bool) (toLow : Char → Char)
    (t : List Char) : List Char :=
  goStringsMap (fun c => if isLetter c || isDigit c then some (toLow c) else none) t

/-- Client.Map (worker.go lines 101-116), parameterised by the Unicode
classifiers: split `value` into fields, normalise each, and for each
non-empty normalised word emit the pair (word, "1") to the output channel;
always return nil. The first component is the returned error, the second
the emitted pairs in order. -/
def clientMap (isSpace isLetter isDigit : Char → Bool) (toLow : Char → Char)
    (_key value : String) : Option Unit × List Pair :=
  let lst := fieldsBy isSpace value.toList
  (none,
    lst.foldl (fun out elt =>
      let word := normalizeWord isLetter isDigit toLow elt
      if 0 < word.length then out ++ [⟨word.asString, "1"⟩] else out) [])

/-- The claim's description of the word-count Map, written from its words:
one pair (w, "1") per whitespace-separated token whose normalisation w is
non-empty, in token order; tokens normalising to the empty string emit
nothing. -/
def clientMapSpec (isSpace isLetter isDigit : Char → Bool) (toLow : Char → Char)
    (value : String) : List Pair :=
  (fieldsBy isSpace value.toList).filterMap (fun t =>
    let w := normalizeWord isLetter isDigit toLow t
    if w = [] then none else some ⟨w.asString, "1"⟩)

/-- strconv.Atoi of the Go standard library (worker.go line 122): an
optional single sign followed by at least one ASCII digit, the value
required to fit in a signed 64-bit int; every failure (empty, stray
character, out of range) is an error, modelled as `none`. -/
def atoiChars : List Char → Option Int
  | [] => none
  | c :: rest =>
    let (neg, digits) :=
      if c = '-' then (true, rest)
      else if c = '+' then (false, rest)
      else (false, c :: rest)
    if digits = [] then none
    else if digits.all Char.isDigit then
      let n : Nat := digits.foldl (fun a d => a * 10 + (d.toNat - 48)) 0
      let v : Int := if neg then -(n : Int) else (n : Int)
      if -((2 : Int) ^ 63) ≤ v ∧ v ≤ (2 : Int) ^ 63 - 1 then some v else none
    else none

/-- strconv.Atoi on a string. -/
def atoi (s : String) : Option Int := atoiChars s.toList

/-- Go 64-bit two's-complement wraparound of an integer. -/
def wrap64 (z : Int) : Int := (z + 2 ^ 63) % 2 ^ 64 - 2 ^ 63

/-- The value-consuming loop of Client.Reduce (worker.go lines 120-130):
parse each value, returning the parse error (and emitting nothing, the
deferred close firing) at the first failure; otherwise accumulate the
64-bit sum and finally emit the single pair (key, Itoa count). -/
def reduceLoop (key : String) : Int → List String → Option Unit × List Pair
  | count, [] => (none, [⟨key, toString count⟩])
  | count, v :: rest =>
    match atoi v with
    | none => (some (), [])
    | some i => reduceLoop key (wrap64 (count + i)) rest

/-- Client.Reduce (worker.go lines 118-131): first component the returned
error, second the pairs emitted to the output channel. -/
def clientReduce (key : String) (values : List String) : Option Unit × List Pair :=
  reduceLoop key 0 values

/-- The claim's description of the word-count Reduce, amended only where the
64-bit wraparound of the running sum forces it: when every value parses,
one pair (key, decimal of the wrapped sum) and no error; otherwise an error
and no output. -/
def clientReduceSpec (key : String) (values : List String) : Option Unit × List Pair :=
  if values.all (fun v => (atoi v).isSome) then
    (none, [⟨key, toString (values.foldl (fun c v => wrap64 (c + ((atoi v).getD 0))) 0)⟩])
  else (some (), [])

/-- The M and R computed by main (worker.go lines 374-378):
`m := number_of_rows / page_count; r := m / 2`, with no validation. -/
def mainComputeMR (numberOfRows pageCount : Nat) : Nat × Nat :=
  (numberOfRows / pageCount, numberOfRows / pageCount / 2)

/-- The map-task construction loop of main (worker.go lines 458-466): one
task per shard index, carrying the computed m and r unvalidated. -/
def buildMapTasks (m r : Nat) (host : String) : List MapTask :=
  (List.range m).map (fun i => ⟨(m : Int), (r : Int), (i : Int), host⟩)

/-! Helper lemmas. -/

/-- Go's `uint32` conversion is the identity on integers already in
[0, 2^32). -/
lemma uint32OfInt_eq_toNat (R : Int) (h0 : 0 ≤ R) (h32 : R < (2 : Int) ^ 32) :
    uint32OfInt R = R.toNat := by
  unfold uint32OfInt
  rw [Int.emod_eq_of_lt h0 h32]

/-- For a modulus in (0, 2^32) the bucket computation succeeds and equals
the FNV-32 hash of the key reduced mod R. -/
lemma bucketCompute_some (task : MapTask) (key : List Nat)
    (h0 : 0 < task.R) (h32 : task.R < (2 : Int) ^ 32) :
    bucketCompute task key = some ((fnv32 key % task.R.toNat : Nat) : Int) := by
  unfold bucketCompute goUint32Mod
  rw [uint32OfInt_eq_toNat task.R h0.le h32]
  have hne : task.R.toNat ≠ 0 := by omega
  simp [hne]

/-- The empty file system holds no store. -/
lemma fsGet_nil (name : String) : fsGet [] name = none := rfl

/-- One step of `fsGet` on a cons cell. -/
lemma fsGet_cons (n : String) (ps : List Pair) (rest : FS) (name : String) :
    fsGet ((n, ps) :: rest) name = if n = name then some ps else fsGet rest name := by
  by_cases h : n = name
  · have hb : (n == name) = true := by simp [h]
    simp [fsGet, List.find?, hb, h]
  · have hb : (n == name) = false := by simp [h]
    simp [fsGet, List.find?, hb, h]

/-- One step of `fsAppend` on a cons cell. -/
lemma fsAppend_cons (n : String) (ps : List Pair) (rest : FS) (name : String)
    (p : Pair) :
    fsAppend ((n, ps) :: rest) name p =
      if n = name then (n, ps ++ [p]) :: rest else (n, ps) :: fsAppend rest name p := by
  by_cases h : n = name
  · have hb : (n == name) = true := by simp [h]
    simp [fsAppend, hb, h]
  · have hb : (n == name) = false := by simp [h]
    simp [fsAppend, hb, h]

/-- Appending to a named store updates exactly that store's contents,
creating it on first write. -/
lemma fsGet_fsAppend_same (fs : FS) (name : String) (p : Pair) :
    fsGet (fsAppend fs name p) name = some ((fsGet fs name).getD [] ++ [p]) := by
  induction fs with
  | nil => simp [fsAppend, fsGet_cons, fsGet_nil]
  | cons e rest ih =>
    obtain ⟨n, ps⟩ := e
    rw [fsAppend_cons]
    by_cases h : n = name
    · subst h
      simp [fsGet_cons]
    · simp [fsGet_cons, h, ih]

/-- Appending to a named store leaves every other store unchanged. -/
lemma fsGet_fsAppend_ne (fs : FS) (name other : String) (p : Pair)
    (h : other ≠ name) :
    fsGet (fsAppend fs name p) other = fsGet fs other := by
  induction fs with
  | nil => simp [fsAppend, fsGet_cons, fsGet_nil, Ne.symm h]
  | cons e rest ih =>
    obtain ⟨n, ps⟩ := e
    rw [fsAppend_cons]
    by_cases hn : n = name
    · subst hn
      simp [fsGet_cons, Ne.symm h]
    · simp [fsGet_cons, hn, ih]

/-- The emit-loop of Client.Map, with its accumulator generalised, equals
the filterMap of the token list. -/
lemma clientMapLoop_eq (isLetter isDigit : Char → Bool) (toLow : Char → Char) :
    ∀ (ts : List (List Char)) (init : List Pair),
      ts.foldl (fun out elt =>
          let word := normalizeWord isLetter isDigit toLow elt
          if 0 < word.length then out ++ [⟨word.asString, "1"⟩] else out) init
        = init ++ ts.filterMap (fun t =>
            let w := normalizeWord isLetter isDigit toLow t
            if w = [] then none else some ⟨w.asString, "1"⟩) := by
  intro ts
  induction ts with
  | nil => intro init; simp
  | cons a t ih =>
    intro init
    cases hw : normalizeWord isLetter isDigit toLow a with
    | nil => simp [List.foldl_cons, List.filterMap_cons, hw, ih]
    | cons c cs =>
      simp [List.foldl_cons, List.filterMap_cons, hw, ih, List.append_assoc]

/-- The value-consuming loop of Client.Reduce, with its accumulator
generalised: all values parse and one wrapped-sum pair is emitted, or the
first failure returns an error with nothing emitted. -/
lemma reduceLoop_eq (key : String) :
    ∀ (vs : List String) (count : Int),
      reduceLoop key count vs
        = if vs.all (fun v => (atoi v).isSome) then
            (none, [⟨key, toString
              (vs.foldl (fun c v => wrap64 (c + ((atoi v).getD 0))) count)⟩])
          else (some (), []) := by
  intro vs
  induction vs with
  | nil => intro count; simp [reduceLoop]
  | cons v rest ih =>
    intro count
    cases hv : atoi v with
    | none => simp [reduceLoop, hv, List.all_cons]
    | some i => simp [reduceLoop, hv, List.all_cons, ih, List.foldl_cons]

/-- A traversal whose function succeeds on every element succeeds. -/
lemma optionTraverse_isSome (f : Nat → Option String) :
    ∀ l : List Nat, (∀ a ∈ l, (f a).isSome) → (optionTraverse f l).isSome := by
  intro l
  induction l with
  | nil => intro _; simp [optionTraverse]
  | cons a t ih =>
    intro h
    obtain ⟨b, hb⟩ := Option.isSome_iff_exists.mp (h a (by simp))
    obtain ⟨bs, hbs⟩ :=
      Option.isSome_iff_exists.mp (ih (fun x hx => h x (by simp [hx])))
    simp [optionTraverse, hb, hbs]

/-- A traversal whose function fails on some element fails. -/
lemma optionTraverse_none (f : Nat → Option String) :
    ∀ l : List Nat, (∃ a ∈ l, f a = none) → optionTraverse f l = none := by
  intro l
  induction l with
  | nil => rintro ⟨x, hx, -⟩; simp at hx
  | cons a t ih =>
    rintro ⟨x, hx, hfx⟩
    rcases List.mem_cons.mp hx with h | h
    · subst h
      simp [optionTraverse, hfx]
    · cases hfa : f a with
      | none => simp [optionTraverse, hfa]
      | some b => simp [optionTraverse, hfa, ih ⟨x, h, hfx⟩]

/-! Claim theorems. -/

/-- C1: the claim says ReduceTask.Process groups the merged key-sorted
sequence and invokes `reducer.Reduce` exactly once per distinct key,
persisting every emitted pair. The code does not: its live path only merges
the bucket files into the reduce input store and returns nil, invoking
`Reduce` zero times and persisting nothing, even when the merged union has
a distinct key — here the run over one source holding ("a", "1") merges
that pair yet makes no Reduce call and writes no output pair. -/
theorem reduceTaskProcess_never_invokes_reduce :
    ∃ ex : ReduceExec,
      reduceTaskProcess ⟨1, 1, 0, ["h"]⟩ (fun _ => [⟨"a", "1"⟩]) = some ex ∧
        ex.merged = [⟨"a", "1"⟩] ∧ ex.reduceCalls = [] ∧
        ex.outputPairs = [] ∧ ex.ret = none :=
  ⟨⟨[⟨"a", "1"⟩], [], [], none⟩, rfl, rfl, rfl, rfl, rfl⟩

/-- C2: the claim says MapTask.Process is synchronous and blocking, never
returning success while internally spawned work is pending. The code is
not: with the fetch, open and query all succeeding and one input pair
present, Process returns nil while the entire scan/Map/insert processing of
that pair is still pending in the un-joined goroutine it spawned. -/
theorem mapTaskProcess_returns_before_spawned_work :
    (mapTaskProcess ⟨1, 1, 0, "h"⟩ none none none [⟨"k", "v"⟩]).ret = none ∧
      (mapTaskProcess ⟨1, 1, 0, "h"⟩ none none none
        [⟨"k", "v"⟩]).pendingAtReturn = [⟨"k", "v"⟩] :=
  ⟨rfl, rfl⟩

/-- C3: the claim says executing MapTask.Process leaves M, R and N
unchanged. The code executes `task.M++` once per input row: a task
constructed with M = 2 carries M = 3 after processing a single input pair,
so the (M, R) pair after execution differs from the constructed one. -/
theorem mapTaskProcess_mutates_M :
    (mapTaskProcess ⟨2, 1, 0, "h"⟩ none none none
        [⟨"k", "v"⟩]).finalTask.M = 3 ∧
      ¬(mapTaskProcess ⟨2, 1, 0, "h"⟩ none none none
        [⟨"k", "v"⟩]).finalTask.M = 2 :=
  ⟨rfl, by decide⟩

/-- C4: the claim says a failed fetch of the shard's source data is fatal
and propagated as a non-nil error. The code only logs the download error
and continues: with the download failing but the local open and query
succeeding, Process returns nil and proceeds to process the (stale or
absent) local input. -/
theorem mapTaskProcess_continues_past_failed_fetch :
    (mapTaskProcess ⟨1, 1, 0, "h"⟩ (some ()) none none [⟨"k", "v"⟩]).ret = none ∧
      (mapTaskProcess ⟨1, 1, 0, "h"⟩ (some ()) none none
        [⟨"k", "v"⟩]).pendingAtReturn = [⟨"k", "v"⟩] :=
  ⟨rfl, rfl⟩

/-- C5: the claim says a configuration violation (R ≤ 0, M ≤ 0, missing
endpoint) is detected and reported at construction/validation time and
partitioning is never attempted with R ≤ 0. The code never validates: a
source of 3 rows and page count 2 yields m = 1, r = 0, main constructs a
map task carrying R = 0 without any error, and the first InsertPair on that
task reaches the partition step and panics (modulus zero), modelled as
`none`. -/
theorem main_constructs_unvalidated_R_zero :
    mainComputeMR 3 2 = (1, 0) ∧
      buildMapTasks 1 0 "h" = [⟨1, 0, 0, "h"⟩] ∧
      insertPair ⟨1, 0, 0, "h"⟩ [] ⟨"a", "1"⟩ = none :=
  ⟨rfl, rfl, rfl⟩

/-- C6 (amended: R restricted to (0, 2^32), the range the `uint32(task.R)`
truncation leaves intact): for every byte string and every such R, the
bucket index computed by InsertPair is the FNV-32 hash of the key bytes
modulo R, lies in [0, R), and depends only on the key bytes and R — any
task sharing the same R computes the same index regardless of its M, N or
source host. -/
theorem bucketCompute_in_range_and_key_pure (Mv Nv : Int) (host : String)
    (R : Int) (key : List Nat) (_hbytes : ∀ b ∈ key, b < 256)
    (h0 : 0 < R) (h32 : R < (2 : Int) ^ 32) :
    ∃ r : Int, bucketCompute ⟨Mv, R, Nv, host⟩ key = some r ∧
      0 ≤ r ∧ r < R ∧
      ∀ (Mv' Nv' : Int) (host' : String),
        bucketCompute ⟨Mv', R, Nv', host'⟩ key = some r := by
  have hb := bucketCompute_some ⟨Mv, R, Nv, host⟩ key h0 h32
  refine ⟨_, hb, ?_, ?_, ?_⟩
  · exact Int.natCast_nonneg _
  · show ((fnv32 key % R.toNat : Nat) : Int) < R
    have hpos : 0 < R.toNat := by omega
    have hlt : fnv32 key % R.toNat < R.toNat := Nat.mod_lt _ hpos
    omega
  · intro Mv' Nv' host'
    exact bucketCompute_some ⟨Mv', R, Nv', host'⟩ key h0 h32

/-- C6 witness: the theorem instantiated at key bytes [104, 105] and R = 4
for a task with M = 7, N = 3. -/
theorem bucketCompute_in_range_and_key_pure_witness :
    ∃ r : Int, bucketCompute ⟨7, 4, 3, "h"⟩ [104, 105] = some r ∧
      0 ≤ r ∧ r < 4 ∧
      ∀ (Mv' Nv' : Int) (host' : String),
        bucketCompute ⟨Mv', 4, Nv', host'⟩ [104, 105] = some r :=
  bucketCompute_in_range_and_key_pure 7 3 "h" 4 [104, 105]
    (by decide) (by decide) (by decide)

/-- C6 counterexample to the claim as stated (every R > 0): at
R = 2^32 > 0 the `uint32(task.R)` truncation makes the modulus zero, the
computation panics, and no bucket index in [0, R) is produced. -/
theorem bucketCompute_claim_fails_at_two_pow_32 :
    (0 : Int) < 2 ^ 32 ∧
      ¬∃ r : Int, bucketCompute ⟨1, (2 : Int) ^ 32, 0, "h"⟩ [97] = some r ∧
        0 ≤ r ∧ r < (2 : Int) ^ 32 := by
  refine ⟨by decide, ?_⟩
  rintro ⟨r, hr, -, -⟩
  rw [show bucketCompute ⟨1, (2 : Int) ^ 32, 0, "h"⟩ [97] = none from rfl] at hr
  exact Option.noConfusion hr

/-- C7 (amended: R restricted to (0, 2^32), the range the `uint32(task.R)`
truncation leaves intact): for every such MapTask and every pair,
InsertPair appends the pair to exactly the bucket store named
`mapOutputFile task.N r` with r the partition of the pair's key by task.R,
creating that store if absent, and every other store is unchanged. -/
theorem insertPair_targets_exactly_one_bucket (task : MapTask) (fs : FS)
    (p : Pair) (h0 : 0 < task.R) (h32 : task.R < (2 : Int) ^ 32) :
    ∃ r : Int, bucketCompute task (keyBytes p.Key) = some r ∧
      insertPair task fs p = some (fsAppend fs (mapOutputFile task.N r) p) ∧
      fsGet (fsAppend fs (mapOutputFile task.N r) p) (mapOutputFile task.N r)
          = some ((fsGet fs (mapOutputFile task.N r)).getD [] ++ [p]) ∧
      ∀ name, name ≠ mapOutputFile task.N r →
        fsGet (fsAppend fs (mapOutputFile task.N r) p) name = fsGet fs name := by
  have hb := bucketCompute_some task (keyBytes p.Key) h0 h32
  refine ⟨_, hb, ?_, fsGet_fsAppend_same fs _ p,
    fun name hn => fsGet_fsAppend_ne fs _ name p hn⟩
  unfold insertPair
  rw [hb]

/-- C7 witness: the theorem instantiated at a task with R = 2 and the pair
("a", "1") inserted into the empty file system. -/
theorem insertPair_targets_exactly_one_bucket_witness :
    ∃ r : Int, bucketCompute ⟨1, 2, 0, "h"⟩ (keyBytes "a") = some r ∧
      insertPair ⟨1, 2, 0, "h"⟩ [] ⟨"a", "1"⟩
          = some (fsAppend [] (mapOutputFile 0 r) ⟨"a", "1"⟩) ∧
      fsGet (fsAppend [] (mapOutputFile 0 r) ⟨"a", "1"⟩) (mapOutputFile 0 r)
          = some ((fsGet [] (mapOutputFile 0 r)).getD [] ++ [(⟨"a", "1"⟩ : Pair)]) ∧
      ∀ name, name ≠ mapOutputFile 0 r →
        fsGet (fsAppend [] (mapOutputFile 0 r) ⟨"a", "1"⟩) name = fsGet [] name :=
  insertPair_targets_exactly_one_bucket ⟨1, 2, 0, "h"⟩ [] ⟨"a", "1"⟩
    (by decide) (by decide)

/-- C7 counterexample to the claim as stated (every R > 0): at R = 2^32 > 0
the partition computation panics and InsertPair writes to no bucket store
at all. -/
theorem insertPair_claim_fails_at_two_pow_32 :
    (0 : Int) < 2 ^ 32 ∧
      insertPair ⟨1, (2 : Int) ^ 32, 0, "h"⟩ [] ⟨"a", "1"⟩ = none :=
  ⟨by decide, rfl⟩

/-- C8: for every choice of the Unicode classifiers and every input
(key, value), Client.Map returns no error and emits exactly one pair
(w, "1") per whitespace-separated token of value whose normalisation w
(letters and digits kept, lower-cased) is non-empty, in token order, with
tokens normalising to the empty string emitting nothing. -/
theorem clientMap_matches_wordcount_spec (isSpace isLetter isDigit : Char → Bool)
    (toLow : Char → Char) (key value : String) :
    clientMap isSpace isLetter isDigit toLow key value
      = (none, clientMapSpec isSpace isLetter isDigit toLow value) := by
  unfold clientMap clientMapSpec
  simp only [clientMapLoop_eq, List.nil_append]

/-- C9 (amended: the emitted sum is the 64-bit two's-complement sum, equal
to the true sum whenever no partial sum overflows): for every key and value
sequence, Client.Reduce emits exactly one pair (key, decimal of the wrapped
sum) with no error when every value parses as a decimal integer, and
returns an error emitting nothing when some value fails to parse. -/
theorem clientReduce_matches_wrapped_spec (key : String) (values : List String) :
    clientReduce key values = clientReduceSpec key values := by
  unfold clientReduce clientReduceSpec
  exact reduceLoop_eq key values 0

/-- C9 counterexample to the claim as stated: both values parse, their true
sum is 2^63 with decimal representation "9223372036854775808", but the
64-bit accumulator wraps and the code emits "-9223372036854775808". -/
theorem clientReduce_sum_overflow_counterexample :
    clientReduce "k" ["9223372036854775807", "1"]
        = (none, [⟨"k", "-9223372036854775808"⟩]) ∧
      toString ((9223372036854775807 : Int) + 1) = "9223372036854775808" ∧
      ¬clientReduce "k" ["9223372036854775807", "1"]
          = (none, [⟨"k", "9223372036854775808"⟩]) :=
  ⟨rfl, rfl, by decide⟩

/-- C10: ReduceTask.Process indexes SourceHosts[m] for every m in
[0, task.M) with no bounds check; when the task carries at least M
endpoints every access is in bounds and the URL-building loop succeeds,
while a task carrying fewer endpoints than M hits an out-of-range access,
modelled as the `none` (panic) outcome. -/
theorem reduceGatherUrls_bounds (task : ReduceTask) :
    (task.M.toNat ≤ task.SourceHosts.length → (reduceGatherUrls task).isSome) ∧
      (task.SourceHosts.length < task.M.toNat → reduceGatherUrls task = none) := by
  constructor
  · intro h
    apply optionTraverse_isSome
    intro m hm
    rw [List.mem_range] at hm
    have hlt : m < task.SourceHosts.length := lt_of_lt_of_le hm h
    rw [List.get?_eq_get hlt]
    simp
  · intro h
    apply optionTraverse_none
    refine ⟨task.SourceHosts.length, ?_, ?_⟩
    · simpa [List.mem_range] using h
    · rw [List.get?_eq_none.mpr (le_refl _)]
      rfl

/-- C10 witness: a task with M = 1 over one endpoint succeeds; a task with
M = 2 over one endpoint panics. -/
theorem reduceGatherUrls_bounds_witness :
    (reduceGatherUrls ⟨1, 1, 0, ["h"]⟩).isSome ∧
      reduceGatherUrls ⟨2, 1, 0, ["h"]⟩ = none :=
  ⟨(reduceGatherUrls_bounds ⟨1, 1, 0, ["h"]⟩).1 (by decide),
    (reduceGatherUrls_bounds ⟨2, 1, 0, ["h"]⟩).2 (by decide)⟩

end MapReduce
